import Mathlib

/-!  Verification of the row-parsing and keyed-diff core of the two
HR-export text utilities (`01_converter_utf16_to_utf8.py`, the Normalizer,
and `02_compare_two_txt_files.py`, the Differ).

Strings are modelled as `List Char`; the Python string operations the two
scripts use (`str.strip`, `str.split("\t")`, `re.split(r'\t| {2,}', _)`,
`re.sub(r"\s+", "", _)`, `str.replace('"', '')`) are embedded as executable
functions on `List Char`, with whitespace taken to be the ASCII whitespace
characters (the scripts' inputs are decoded text lines, and none of the
claims hinges on non-ASCII whitespace).  File-system and decoding behaviour
is a collaborator boundary: the per-line processing loops are embedded on an
already-decoded list of lines, and the Differ's exception flow is embedded
by an explicit `ReadInput` that records whether reading raised.  -/

namespace Enova

/-- Strings of the embedding: a Python `str` as its list of characters. -/
abbrev Str := List Char

/-- ASCII whitespace, the characters `str.strip()` / `\s` treat as blank
(space, tab, newline, carriage return, vertical tab, form feed). -/
def isPySpace (c : Char) : Bool :=
  c = ' ' || c = '\t' || c = '\n' || c = '\r' || c = '\x0b' || c = '\x0c'

/-- Python `s.strip()`: drop whitespace from both ends. -/
def pyStrip (s : Str) : Str :=
  ((s.dropWhile isPySpace).reverse.dropWhile isPySpace).reverse

/-- Python `re.sub(r"\s+", "", s)`: remove every whitespace character. -/
def removeWs (s : Str) : Str := s.filter (fun c => !isPySpace c)

/-- Python `field.replace('"', '')`: remove every double-quote character. -/
def stripQuotes (s : Str) : Str := s.filter (fun c => !(c = '"'))

/-- Splitter helper: push one character onto the front of the current
(first) field of an already-split suffix. -/
def consHead (c : Char) : List Str → List Str
  | [] => [[c]]
  | f :: rest => (c :: f) :: rest

/-- Python `s.split("\t")` (line 68 of the Differ): split at every tab,
keeping empty fields; the split of `""` is `[""]`. -/
def splitTab : Str → List Str
  | [] => [[]]
  | c :: cs => if c = '\t' then [] :: splitTab cs else consHead c (splitTab cs)

/-- Scanner of Python `re.split(r'\t| {2,}', s)` (line 38 of the
Normalizer): a delimiter is a single tab or a maximal run of two or more
spaces.  The fuel argument makes the recursion structural (the space-run
case continues after `dropWhile`); `reSplitTS` supplies fuel `s.length`,
which `reSplitAux_fuel_irrelevant` below shows is always enough. -/
def reSplitAux : Nat → Str → List Str
  | _, [] => [[]]
  | 0, _ :: _ => [[]]
  | n + 1, c :: cs =>
    if c = '\t' then [] :: reSplitAux n cs
    else if c = ' ' ∧ cs.head? = some ' ' then
      [] :: reSplitAux n (cs.dropWhile (fun d => d = ' '))
    else consHead c (reSplitAux n cs)

/-- Python `re.split(r'\t| {2,}', s)`. -/
def reSplitTS (s : Str) : List Str := reSplitAux s.length s

/-- Python `"\t".join(fields)`. -/
def joinTab : List Str → Str
  | [] => []
  | [f] => f
  | f :: g :: fs => f ++ '\t' :: joinTab (g :: fs)

/-- The Normalizer's `expected_header`
(`"Kod\tNazwisko\tImie\tDział\tZatrudnienie".strip()`, line 72). -/
def expected_header : Str :=
  pyStrip ("Kod\tNazwisko\tImie\tDział\tZatrudnienie".toList)

/-- The header literal the Differ compares against (line 64). -/
def differHeader : Str := "Kod\tNazwisko\tImie\tDział\tZatrudnienie".toList

/-- Outcome of the Normalizer's loop body for one line. -/
inductive LineOutcome where
  | header (stripped : Str)
  | row (fields : List Str)
  | malformed (stripped : Str)
deriving DecidableEq

/-- One iteration of the Normalizer's loop (lines 29–48): strip the line;
skip it when it equals the expected header with all whitespace removed;
otherwise split on tab-or-multi-space, remove double quotes from each
field, and accept exactly when there are exactly 5 fields, recording the
stripped line as skipped otherwise. -/
def normLine (hdr line : Str) : LineOutcome :=
  let line_cleaned := pyStrip line
  if removeWs line_cleaned = removeWs hdr then .header line_cleaned
  else
    let fields := (reSplitTS line_cleaned).map stripQuotes
    if fields.length = 5 then .row fields
    else .malformed line_cleaned

/-- Accumulated state of `process_file_content`: the cleaned output lines,
the skipped lines, and the rows added to the `PrettyTable`. -/
structure NormResult where
  cleaned : List Str
  skipped : List Str
  rows : List (List Str)
deriving DecidableEq

/-- The output line written for an accepted row:
`"\t".join(fields) + "\n"`. -/
def lineOf (fields : List Str) : Str := joinTab fields ++ ['\n']

/-- Effect of one line on the Normalizer's accumulated state. -/
def normStep (hdr : Str) (s : NormResult) (line : Str) : NormResult :=
  match normLine hdr line with
  | .header lc => { s with skipped := s.skipped ++ [lc] }
  | .row fields =>
      { s with cleaned := s.cleaned ++ [lineOf fields],
               rows := s.rows ++ [fields] }
  | .malformed lc => { s with skipped := s.skipped ++ [lc] }

/-- `process_file_content(content, expected_header)` (lines 22–50). -/
def process_file_content (content : List Str) (hdr : Str) : NormResult :=
  content.foldl (normStep hdr) ⟨[], [], []⟩

/-- Condition of the warning at lines 88–93 of the Normalizer:
`len(content) != len(cleaned_content)`. -/
def discrepancy_reported (content cleaned : List Str) : Bool :=
  !(content.length = cleaned.length)

/-- A Python `dict` from codes to field lists, as an insertion-ordered
association list with unique keys maintained by `dictInsert`. -/
abbrev Dict := List (Str × List Str)

/-- Keys of a dict, in insertion order. -/
def dictKeys (d : Dict) : List Str := d.map Prod.fst

/-- Python `d[k] = v`: overwrite in place when the key exists, append
otherwise. -/
def dictInsert (d : Dict) (k : Str) (v : List Str) : Dict :=
  if k ∈ dictKeys d then d.map (fun p => if p.1 = k then (k, v) else p)
  else d ++ [(k, v)]

/-- Lookup of a key's value, `none` when absent. -/
def dictFind (d : Dict) (k : Str) : Option (List Str) :=
  (d.find? (fun p => decide (p.1 = k))).map Prod.snd

/-- Python `d[k]` at a key known to be present (`find_differences` only
indexes keys drawn from the dict); `[]` stands for the impossible miss. -/
def dictGet (d : Dict) (k : Str) : List Str := (dictFind d k).getD []

/-- Outcome of the Differ's loop body for one line (lines 62–73):
the header is matched by exact equality of the stripped line with the
header literal, and data lines are split on tabs only, with no quote
removal. -/
inductive DiffLine where
  | header (stripped : Str)
  | record (kod : Str) (value : List Str)
  | malformed (stripped : Str)
deriving DecidableEq

/-- One line of the Differ's `read_file` loop. -/
def differLine (line : Str) : DiffLine :=
  if pyStrip line = differHeader then .header (pyStrip line)
  else
    match splitTab (pyStrip line) with
    | [kod, nazwisko, imie, dzial, zatrudnienie] =>
        .record kod [nazwisko, imie, dzial, zatrudnienie]
    | _ => .malformed (pyStrip line)

/-- Accumulated state of the Differ's `read_file`: the code-keyed mapping
and the skipped lines. -/
structure ReadResult where
  data : Dict
  skipped : List Str
deriving DecidableEq

/-- Effect of one line on the Differ's accumulated state. -/
def readStep (s : ReadResult) (line : Str) : ReadResult :=
  match differLine line with
  | .header lc => { s with skipped := s.skipped ++ [lc] }
  | .record k v => { s with data := dictInsert s.data k v }
  | .malformed lc => { s with skipped := s.skipped ++ [lc] }

/-- The loop of `read_file` (lines 59–75) on already-decoded lines. -/
def read_file_lines (content : List Str) : ReadResult :=
  content.foldl readStep ⟨[], []⟩

/-- The accepted (code, fields) pairs of a file, in line order. -/
def acceptedRecords (content : List Str) : List (Str × List Str) :=
  content.filterMap (fun line =>
    match differLine line with
    | .record k v => some (k, v)
    | _ => none)

/-- Collaborator boundary of `read_file` (lines 51–79): either the
encoding was detected and the file decoded into lines, or some exception
was raised while detecting, opening or reading. -/
inductive ReadInput where
  | ok (lines : List Str)
  | failed
deriving DecidableEq

/-- `read_file` with its exception handler: any exception raised while
reading is caught at lines 77–79, logged, and turned into `({}, [])`. -/
def read_file (inp : ReadInput) : ReadResult :=
  match inp with
  | .ok lines => read_file_lines lines
  | .failed => ⟨[], []⟩

/-- An entry of the three result collections: `(kod, fields, is_active)`. -/
abbrev Entry := Str × List Str × Bool

/-- Keys of a result collection. -/
def entryKeys (l : List Entry) : List Str := l.map (fun e => e.1)

/-- `find_differences(content1, content2)` (lines 98–119).  Python `set`
iteration order is implementation-defined; the embedding materializes the
set difference and intersection in first-insertion order (`dedup` models
the deduplication a `set` performs), which is one admissible order — the
properties proved below are order-insensitive membership statements. -/
def find_differences (content1 content2 : Dict) :
    List Entry × List Entry × List Entry :=
  let set1 := (dictKeys content1).dedup
  let set2 := (dictKeys content2).dedup
  let unique_to_file1 :=
    (set1.filter (fun k => !decide (k ∈ set2))).map
      (fun k => (k, dictGet content1 k, false))
  let unique_to_file2 :=
    (set2.filter (fun k => !decide (k ∈ set1))).map
      (fun k => (k, dictGet content2 k, true))
  let modified_rows :=
    ((set1.filter (fun k => decide (k ∈ set2))).filter
        (fun k => !decide (dictGet content1 k = dictGet content2 k))).map
      (fun k => (k, dictGet content1 k, true))
  (unique_to_file1, unique_to_file2, modified_rows)

/-- Result of `validate_file` (lines 14–19): the file exists and is
non-empty, or one of the two raised errors. -/
inductive ValidateResult where
  | ok
  | missing
  | empty
deriving DecidableEq

/-- Observable outcome of one `compare_files` run: the process exit code
(0 when the run falls off the end normally, 1 via `sys.exit(1)`) and the
computed differences when the run got that far. -/
structure CompareOutcome where
  exitCode : Nat
  result : Option (List Entry × List Entry × List Entry)

/-- Control flow of `compare_files` (lines 121–169): a validation error
for either file is caught and exits with code 1; otherwise both files are
read (each `read_file` swallowing its own exceptions) and the run
completes normally with exit code 0. -/
def compare_files (v1 v2 : ValidateResult) (r1 r2 : ReadInput) :
    CompareOutcome :=
  match v1, v2 with
  | .ok, .ok =>
      ⟨0, some (find_differences (read_file r1).data (read_file r2).data)⟩
  | _, _ => ⟨1, none⟩

/-- Fields with no tab and no two adjacent spaces survive a tab-join and
re-split unchanged. -/
def noDoubleSpace : Str → Bool
  | [] => true
  | [_] => true
  | a :: b :: cs => !(a = ' ' && b = ' ') && noDoubleSpace (b :: cs)

/-- A field the Normalizer's splitter cannot cut. -/
def fieldSafe (f : Str) : Bool :=
  f.all (fun c => !(c = '\t')) && noDoubleSpace f

/-- The field starts with a character `strip` keeps (so it is non-empty). -/
def headOkay : Str → Bool
  | [] => false
  | c :: _ => !isPySpace c

/-- The field ends with a character `strip` keeps. -/
def lastOkay (f : Str) : Bool := headOkay f.reverse

/-- Rows whose output line parses back to the row itself: every field is
uncuttable, the line's two ends survive `strip`, and the joined line is
not mistaken for the header. -/
def goodRow (r : List Str) : Bool :=
  r.all fieldSafe && headOkay r.headI && lastOkay r.getLastI &&
    !(removeWs (joinTab r) = removeWs expected_header)

/-- Concrete sample RecordSets used to instantiate the diff theorems;
`sampleA` holds codes 001 and 002, `sampleB` holds 001 with a different
role (the spec's scenarios 4 and 5). -/
def sampleA : Dict :=
  [("001".toList, ["Nowak".toList, "Jan".toList, "IT".toList, "Dev".toList]),
   ("002".toList, ["Kowalska".toList, "Anna".toList, "HR".toList, "Mgr".toList])]

/-- Second sample RecordSet, sharing code 001 with `sampleA` but with a
different fourth field. -/
def sampleB : Dict :=
  [("001".toList, ["Nowak".toList, "Jan".toList, "IT".toList, "Manager".toList])]

theorem dropWhile_length_le (p : Char → Bool) (l : Str) :
    (l.dropWhile p).length ≤ l.length := by
  induction l with
  | nil => simp
  | cons c cs ih =>
    rw [List.dropWhile_cons]
    split
    · exact ih.trans (by simp)
    · exact le_rfl

theorem mem_entryKeys_unique1 (c1 c2 : Dict) (k : Str) :
    k ∈ entryKeys (find_differences c1 c2).1 ↔
      k ∈ dictKeys c1 ∧ ¬ k ∈ dictKeys c2 := by
  simp [find_differences, entryKeys, List.mem_filter, List.mem_dedup]

theorem mem_entryKeys_unique2 (c1 c2 : Dict) (k : Str) :
    k ∈ entryKeys (find_differences c1 c2).2.1 ↔
      k ∈ dictKeys c2 ∧ ¬ k ∈ dictKeys c1 := by
  simp [find_differences, entryKeys, List.mem_filter, List.mem_dedup]

theorem mem_entryKeys_modified (c1 c2 : Dict) (k : Str) :
    k ∈ entryKeys (find_differences c1 c2).2.2 ↔
      k ∈ dictKeys c1 ∧ k ∈ dictKeys c2 ∧ dictGet c1 k ≠ dictGet c2 k := by
  simp [find_differences, entryKeys, List.mem_filter, List.mem_dedup]
  tauto

/-- C1, original form refuted at two concrete lines.  In the Normalizer an
exact header line is appended to `skipped_lines` (line 34 of the source),
not excluded from the diagnostic collection; and in the Differ a line that
equals the header only after whitespace removal (here `"Kod "` with a
trailing space before the first tab) is not recognized as a header at all
and is accepted into the RecordSet. -/
theorem header_line_in_diagnostics_cex :
    ((process_file_content ["Kod\tNazwisko\tImie\tDział\tZatrudnienie\n".toList]
        expected_header).skipped = [expected_header]) ∧
    (removeWs (pyStrip "Kod \tNazwisko\tImie\tDział\tZatrudnienie\n".toList)
        = removeWs differHeader) ∧
    ((read_file_lines ["Kod \tNazwisko\tImie\tDział\tZatrudnienie\n".toList]).data
        = [("Kod ".toList,
            ["Nazwisko".toList, "Imie".toList, "Dział".toList,
             "Zatrudnienie".toList])]) := by
  decide

/-- C1, amended: a line matching each tool's own header test (equality
modulo whitespace removal in the Normalizer; exact equality of the
stripped line in the Differ) is excluded from the accepted output and the
RecordSet, and its stripped form is appended to the skipped-lines
diagnostic collection. -/
theorem header_lines_skipped (hdr line : Str) :
    (removeWs (pyStrip line) = removeWs hdr →
      ∀ s, normStep hdr s line = { s with skipped := s.skipped ++ [pyStrip line] }) ∧
    (pyStrip line = differHeader →
      ∀ s, readStep s line = { s with skipped := s.skipped ++ [pyStrip line] }) := by
  constructor
  · intro h s
    simp [normStep, normLine, h]
  · intro h s
    simp [readStep, differLine, h]

/-- C2, original form refuted: the Differ performs no double-quote
removal.  The line below trims and quote-strips to five tab-separated
fields, yet `read_file` records the code field with its quotes kept. -/
theorem differ_keeps_quotes_cex :
    (splitTab (stripQuotes (pyStrip "\"001\"\tNowak\tJan\tIT\tDev\n".toList))).length = 5 ∧
    differLine "\"001\"\tNowak\tJan\tIT\tDev\n".toList
      = .record "\"001\"".toList
          ["Nowak".toList, "Jan".toList, "IT".toList, "Dev".toList] ∧
    '"' ∈ "\"001\"".toList := by
  decide

/-- C2, amended: on a non-header line, the Normalizer splits the stripped
line on tab-or-multi-space and then removes double quotes from each of the
resulting fields, accepting exactly 5 of them in order; the Differ splits
the stripped line on tabs only and keeps the 5 fields verbatim, with no
quote removal. -/
theorem five_field_lines_parsed (hdr line : Str) :
    (removeWs (pyStrip line) ≠ removeWs hdr →
      (reSplitTS (pyStrip line)).length = 5 →
        normLine hdr line = .row ((reSplitTS (pyStrip line)).map stripQuotes)) ∧
    (pyStrip line ≠ differHeader →
      ∀ f1 f2 f3 f4 f5, splitTab (pyStrip line) = [f1, f2, f3, f4, f5] →
        differLine line = .record f1 [f2, f3, f4, f5]) := by
  constructor
  · intro hh h5
    simp [normLine, hh, h5]
  · intro hh f1 f2 f3 f4 f5 hsp
    simp [differLine, hh, hsp]

/-- C9, original form refuted: on an input with zero decoded lines (a
UTF-16 file holding only a byte-order mark is non-empty on disk yet
decodes to no lines) zero rows are written and the counts agree, so the
warning at lines 88–93 does not fire, against the claim's "zero rows
were written" disjunct. -/
theorem discrepancy_zero_rows_cex :
    (process_file_content [] expected_header).cleaned.length = 0 ∧
    discrepancy_reported [] (process_file_content [] expected_header).cleaned = false := by
  decide

/-- C9, amended: the Normalizer reports a discrepancy exactly when the
written-row count differs from the input line count; writing zero rows
triggers the report only when the input had at least one line. -/
theorem discrepancy_iff_counts_differ (content : List Str) (hdr : Str) :
    (discrepancy_reported content (process_file_content content hdr).cleaned = true ↔
      (process_file_content content hdr).cleaned.length ≠ content.length) ∧
    (content ≠ [] → (process_file_content content hdr).cleaned = [] →
      discrepancy_reported content (process_file_content content hdr).cleaned = true) := by
  constructor
  · simp [discrepancy_reported]
    exact ne_comm
  · intro h1 h2
    rw [h2]
    simpa [discrepancy_reported] using h1

/-- C10, original form refuted: with both files validating, an exception
raised while reading or decoding file 1 is swallowed inside `read_file`,
the run continues against an empty mapping — every row of file 2 gets
reported as "unique to file 2" — and the process exits with code 0, not a
non-zero code. -/
theorem read_error_no_abort_cex :
    (compare_files .ok .ok .failed
        (.ok ["001\tNowak\tJan\tIT\tDev\n".toList])).exitCode = 0 ∧
    (compare_files .ok .ok .failed
        (.ok ["001\tNowak\tJan\tIT\tDev\n".toList])).result
      = some (find_differences []
          (read_file (.ok ["001\tNowak\tJan\tIT\tDev\n".toList])).data) ∧
    ((find_differences []
        (read_file (.ok ["001\tNowak\tJan\tIT\tDev\n".toList])).data).2.1).length = 1 := by
  refine ⟨rfl, rfl, by decide⟩

/-- C10, amended: exceptions raised while detecting the encoding, opening
or reading a file are caught inside `read_file`, which then returns an
empty mapping and empty skip list, and the run completes with exit code 0;
only the validation errors (missing or empty file) abort the run with exit
code 1, and when both validations pass the differences are always
computed from whatever the two reads produced. -/
theorem read_errors_swallowed (v1 v2 : ValidateResult) (r1 r2 : ReadInput) :
    read_file .failed = ⟨[], []⟩ ∧
    (compare_files v1 v2 r1 r2).exitCode = (if v1 = .ok ∧ v2 = .ok then 0 else 1) ∧
    (v1 = .ok → v2 = .ok → (compare_files v1 v2 r1 r2).result
        = some (find_differences (read_file r1).data (read_file r2).data)) := by
  refine ⟨rfl, ?_, ?_⟩
  · cases v1 <;> cases v2 <;> simp [compare_files]
  · intro h1 h2
    subst h1
    subst h2
    rfl

/-- C3: for any key of either RecordSet, the three collections of
`find_differences` are pairwise disjoint by key, and the key appears in
none of them exactly when it is present in both RecordSets with equal
4-field values (so, with the disjointness, in exactly one otherwise). -/
theorem find_differences_partition (c1 c2 : Dict) (k : Str)
    (hk : k ∈ dictKeys c1 ∨ k ∈ dictKeys c2) :
    (¬(k ∈ entryKeys (find_differences c1 c2).1 ∧
        k ∈ entryKeys (find_differences c1 c2).2.1)) ∧
    (¬(k ∈ entryKeys (find_differences c1 c2).1 ∧
        k ∈ entryKeys (find_differences c1 c2).2.2)) ∧
    (¬(k ∈ entryKeys (find_differences c1 c2).2.1 ∧
        k ∈ entryKeys (find_differences c1 c2).2.2)) ∧
    (¬(k ∈ entryKeys (find_differences c1 c2).1 ∨
        k ∈ entryKeys (find_differences c1 c2).2.1 ∨
        k ∈ entryKeys (find_differences c1 c2).2.2) ↔
      (k ∈ dictKeys c1 ∧ k ∈ dictKeys c2 ∧ dictGet c1 k = dictGet c2 k)) := by
  simp only [mem_entryKeys_unique1, mem_entryKeys_unique2, mem_entryKeys_modified]
  tauto

/-- Witness for C3 at the spec's scenario 5: code 002 is present in
`sampleA` only, and indeed cannot sit in both "unique" collections. -/
theorem find_differences_partition_witness :
    ¬("002".toList ∈ entryKeys (find_differences sampleA sampleB).1 ∧
      "002".toList ∈ entryKeys (find_differences sampleA sampleB).2.1) :=
  (find_differences_partition sampleA sampleB ("002".toList) (Or.inl (by decide))).1

/-- C4: a key present in both RecordSets lands in the modified collection
(as the key with file 1's value list and the flag `True`) exactly when the
two value lists are not structurally equal, and every modified entry
carries flag `True` and file 1's value list for its key. -/
theorem modified_carries_file1_values (c1 c2 : Dict) (k : Str)
    (h1 : k ∈ dictKeys c1) (h2 : k ∈ dictKeys c2) :
    ((k, dictGet c1 k, true) ∈ (find_differences c1 c2).2.2 ↔
      dictGet c1 k ≠ dictGet c2 k) ∧
    (∀ e ∈ (find_differences c1 c2).2.2, e.2.2 = true ∧ e.2.1 = dictGet c1 e.1) := by
  constructor
  · constructor
    · intro hmem
      rcases List.mem_map.mp hmem with ⟨a, ha, heq⟩
      have hak : a = k := congrArg Prod.fst heq
      subst hak
      rcases List.mem_filter.mp ha with ⟨-, hne⟩
      simpa using hne
    · intro hne
      refine List.mem_map.mpr ⟨k, ?_, rfl⟩
      simp [List.mem_filter, List.mem_dedup, h1, h2, hne]
  · intro e he
    rcases List.mem_map.mp he with ⟨a, ha, rfl⟩
    exact ⟨rfl, rfl⟩

/-- Witness for C4 at the spec's scenario 4: code 001 has role `Dev` in
`sampleA` and `Manager` in `sampleB`, so it is reported as modified with
file 1's values. -/
theorem modified_carries_file1_values_witness :
    ("001".toList, dictGet sampleA ("001".toList), true)
      ∈ (find_differences sampleA sampleB).2.2 :=
  ((modified_carries_file1_values sampleA sampleB ("001".toList)
      (by decide) (by decide)).1).mpr (by decide)

/-- C6: each tool accepts a line as a Row exactly when its own header test
fails and its own delimiter pattern (tab or a run of two-or-more spaces in
the Normalizer, a tab only in the Differ) cuts the stripped line into
exactly 5 fields; and the Normalizer parses the space-run-delimited sample
line into its 5 fields. -/
theorem row_only_from_five_fields :
    (∀ hdr line, (∃ f, normLine hdr line = .row f) ↔
        (removeWs (pyStrip line) ≠ removeWs hdr ∧
          (reSplitTS (pyStrip line)).length = 5)) ∧
    (∀ line, (∃ kod v, differLine line = .record kod v) ↔
        (pyStrip line ≠ differHeader ∧ (splitTab (pyStrip line)).length = 5)) ∧
    normLine expected_header ("001  Nowak  Jan  IT  Developer".toList)
      = .row ["001".toList, "Nowak".toList, "Jan".toList, "IT".toList,
          "Developer".toList] := by
  refine ⟨?_, ?_, by decide⟩
  · intro hdr line
    by_cases hh : removeWs (pyStrip line) = removeWs hdr
    · simp [normLine, hh]
    · by_cases h5 : (reSplitTS (pyStrip line)).length = 5
      · simp [normLine, hh, h5]
      · simp [normLine, hh, h5]
  · intro line
    by_cases hh : pyStrip line = differHeader
    · simp [differLine, hh]
    · rcases hsp : splitTab (pyStrip line) with
        _ | ⟨a, _ | ⟨b, _ | ⟨c, _ | ⟨d, _ | ⟨e, _ | ⟨f, L⟩⟩⟩⟩⟩⟩ <;>
      simp [differLine, hh, hsp]

/-- C8: a line failing each tool's own header test and own 5-field check
is wholly rejected: the only state change is the append of the stripped
line to the skipped diagnostic list (so it reaches neither the cleaned
output, nor the table rows, nor the RecordSet), and the fold over the
remaining lines proceeds from that state. -/
theorem malformed_lines_skipped (hdr line : Str) :
    (removeWs (pyStrip line) ≠ removeWs hdr →
      (reSplitTS (pyStrip line)).length ≠ 5 →
        ∀ s, normStep hdr s line = { s with skipped := s.skipped ++ [pyStrip line] }) ∧
    (pyStrip line ≠ differHeader →
      (splitTab (pyStrip line)).length ≠ 5 →
        ∀ s, readStep s line = { s with skipped := s.skipped ++ [pyStrip line] }) := by
  constructor
  · intro hh h5 s
    simp [normStep, normLine, hh, h5]
  · intro hh h5 s
    have hm : differLine line = .malformed (pyStrip line) := by
      rcases hsp : splitTab (pyStrip line) with
          _ | ⟨a, _ | ⟨b, _ | ⟨c, _ | ⟨d, _ | ⟨e, _ | ⟨f, L⟩⟩⟩⟩⟩⟩
      · simp [differLine, hh, hsp]
      · simp [differLine, hh, hsp]
      · simp [differLine, hh, hsp]
      · simp [differLine, hh, hsp]
      · simp [differLine, hh, hsp]
      · exact absurd (by rw [hsp]; rfl) h5
      · simp [differLine, hh, hsp]
    simp [readStep, hm]

/-- Witness for C8 at the spec's scenario 3: a 4-field line is appended,
stripped, to the skipped list of either tool and changes nothing else. -/
theorem malformed_lines_skipped_witness :
    normStep expected_header ⟨[], [], []⟩ ("001\tNowak\tJan\tIT\n".toList)
        = ⟨[], ["001\tNowak\tJan\tIT".toList], []⟩ ∧
    readStep ⟨[], []⟩ ("001\tNowak\tJan\tIT\n".toList)
        = ⟨[], ["001\tNowak\tJan\tIT".toList]⟩ := by
  have h := malformed_lines_skipped expected_header ("001\tNowak\tJan\tIT\n".toList)
  exact ⟨h.1 (by decide) (by decide) _, h.2 (by decide) (by decide) _⟩

theorem dictFind_cons (q : Str × List Str) (d : Dict) (k' : Str) :
    dictFind (q :: d) k' = if q.1 = k' then some q.2 else dictFind d k' := by
  by_cases h : q.1 = k' <;> simp [dictFind, List.find?_cons, h]

theorem dictFind_map_ne (d : Dict) (k : Str) (v : List Str) (k' : Str)
    (hkk : k ≠ k') :
    dictFind (d.map (fun p => if p.1 = k then (k, v) else p)) k' = dictFind d k' := by
  induction d with
  | nil => rfl
  | cons p d ih =>
    simp only [List.map_cons, dictFind_cons]
    by_cases hp : p.1 = k
    · simpa [hp, hkk] using ih
    · by_cases hp' : p.1 = k'
      · have hne : ¬ k' = k := fun h => hp (hp'.trans h)
        simp [hp, hp', hne]
      · simpa [hp, hp'] using ih

theorem dictFind_map_overwrite (d : Dict) (k : Str) (v : List Str) (k' : Str)
    (hmem : k ∈ dictKeys d) :
    dictFind (d.map (fun p => if p.1 = k then (k, v) else p)) k'
      = if k = k' then some v else dictFind d k' := by
  induction d with
  | nil => simp [dictKeys] at hmem
  | cons p d ih =>
    simp only [List.map_cons, dictFind_cons]
    by_cases hp : p.1 = k
    · by_cases hkk : k = k'
      · subst hkk
        simp [hp]
      · have htail := dictFind_map_ne d k v k' hkk
        simp only [hp, if_pos rfl]
        simp only [hp] at htail ⊢
        simpa [hkk, hp] using htail
    · have hmem' : k ∈ dictKeys d := by
        rw [dictKeys, List.map_cons] at hmem
        rcases List.mem_cons.mp hmem with h | h
        · exact absurd h.symm hp
        · exact h
      by_cases hp' : p.1 = k'
      · have hkk : ¬ k = k' := fun h => hp (hp'.trans h.symm)
        have hne : ¬ k' = k := fun h => hkk h.symm
        simp [hp, hp', hkk, hne]
      · simpa [hp, hp'] using ih hmem'

theorem dictFind_append_new (d : Dict) (k : Str) (v : List Str) (k' : Str)
    (hmem : ¬ k ∈ dictKeys d) :
    dictFind (d ++ [(k, v)]) k' = if k = k' then some v else dictFind d k' := by
  unfold dictFind
  rw [List.find?_append]
  by_cases hkk : k = k'
  · subst hkk
    have hnone : d.find? (fun p => decide (p.1 = k)) = none := by
      rw [List.find?_eq_none]
      intro x hx
      simp only [decide_eq_true_eq]
      exact fun h => hmem (h ▸ List.mem_map_of_mem Prod.fst hx)
    simp [hnone, List.find?_cons]
  · simp [List.find?_cons, hkk, Option.or_none]

theorem dictFind_insert (d : Dict) (k : Str) (v : List Str) (k' : Str) :
    dictFind (dictInsert d k v) k' = if k = k' then some v else dictFind d k' := by
  unfold dictInsert
  by_cases hmem : k ∈ dictKeys d
  · rw [if_pos hmem]
    exact dictFind_map_overwrite d k v k' hmem
  · rw [if_neg hmem]
    exact dictFind_append_new d k v k' hmem

theorem dictKeys_insert (d : Dict) (k : Str) (v : List Str) :
    dictKeys (dictInsert d k v)
      = if k ∈ dictKeys d then dictKeys d else dictKeys d ++ [k] := by
  unfold dictInsert
  split
  · simp only [dictKeys, List.map_map]
    apply List.map_congr_left
    intro p hp
    by_cases h : p.1 = k <;> simp [h, Function.comp]
  · simp [dictKeys]

theorem nodup_dictKeys_insert (d : Dict) (k : Str) (v : List Str)
    (h : (dictKeys d).Nodup) : (dictKeys (dictInsert d k v)).Nodup := by
  rw [dictKeys_insert]
  split
  · exact h
  · rename_i hmem
    simp [List.nodup_append, h, List.disjoint_singleton, hmem]

theorem nodup_foldl_insert (ps : List (Str × List Str)) :
    ∀ d : Dict, (dictKeys d).Nodup →
      (dictKeys (ps.foldl (fun d p => dictInsert d p.1 p.2) d)).Nodup := by
  induction ps with
  | nil => exact fun d h => h
  | cons p ps ih => exact fun d h => ih _ (nodup_dictKeys_insert _ _ _ h)

theorem dictFind_foldl_insert (ps : List (Str × List Str)) :
    ∀ (d : Dict) (k : Str),
      dictFind (ps.foldl (fun d p => dictInsert d p.1 p.2) d) k
        = (((ps.filter (fun p => decide (p.1 = k))).getLast?).map Prod.snd).or
            (dictFind d k) := by
  induction ps with
  | nil => intro d k; simp
  | cons p ps ih =>
    intro d k
    rw [List.foldl_cons, ih, dictFind_insert]
    by_cases hp : p.1 = k
    · rw [List.filter_cons_of_pos (by simpa using hp), if_pos hp]
      cases hl : (ps.filter (fun q => decide (q.1 = k))).getLast? with
      | none => simp [List.getLast?_cons, hl]
      | some q => simp [List.getLast?_cons, hl]
    · rw [List.filter_cons_of_neg (by simpa using hp), if_neg hp]

theorem read_data_eq_foldl (content : List Str) :
    ∀ s : ReadResult,
      (content.foldl readStep s).data
        = (acceptedRecords content).foldl (fun d p => dictInsert d p.1 p.2) s.data := by
  induction content with
  | nil => intro s; rfl
  | cons l ls ih =>
    intro s
    rw [List.foldl_cons, ih]
    cases hd : differLine l <;>
      simp [readStep, acceptedRecords, hd, List.filterMap_cons]

/-- C7: the Differ's RecordSet has duplicate-free keys by construction,
and looking a code up yields the 4-field value list of the last accepted
line carrying that code (later lines silently overwrite earlier ones). -/
theorem last_write_wins (content : List Str) (k : Str) :
    (dictKeys (read_file_lines content).data).Nodup ∧
    dictFind (read_file_lines content).data k
      = (((acceptedRecords content).filter (fun p => decide (p.1 = k))).getLast?).map
          Prod.snd := by
  have h := read_data_eq_foldl content ⟨[], []⟩
  constructor
  · rw [show (read_file_lines content).data = (content.foldl readStep ⟨[], []⟩).data from rfl, h]
    exact nodup_foldl_insert _ _ (by simp [dictKeys])
  · rw [show (read_file_lines content).data = (content.foldl readStep ⟨[], []⟩).data from rfl, h,
      dictFind_foldl_insert]
    simp [dictFind]

theorem pyStrip_of_good_ends (x : Str) (h1 : headOkay x = true)
    (h2 : lastOkay x = true) : pyStrip (x ++ ['\n']) = x := by
  cases x with
  | nil => simp [headOkay] at h1
  | cons c cs =>
    have hc : isPySpace c = false := by simpa [headOkay] using h1
    unfold pyStrip
    rw [List.cons_append, List.dropWhile_cons, if_neg (by simp [hc]),
      ← List.cons_append, List.reverse_append,
      show (['\n'] : Str).reverse = ['\n'] from rfl, List.singleton_append]
    rw [List.dropWhile_cons, if_pos (by decide)]
    cases hr : (c :: cs).reverse with
    | nil => exact absurd hr (by simp)
    | cons d ds =>
      have hd : isPySpace d = false := by
        have h3 := h2
        unfold lastOkay at h3
        rw [hr] at h3
        simpa [headOkay] using h3
      rw [List.dropWhile_cons, if_neg (by simp [hd]), ← hr, List.reverse_reverse]

theorem reSplitAux_fuel (n : Nat) : ∀ (m : Nat) (s : Str),
    s.length ≤ n → s.length ≤ m → reSplitAux n s = reSplitAux m s := by
  induction n with
  | zero =>
    intro m s hn _
    have hs : s = [] := List.eq_nil_of_length_eq_zero (Nat.le_zero.mp hn)
    subst hs
    cases m <;> rfl
  | succ n ih =>
    intro m s hn hm
    cases s with
    | nil => cases m <;> rfl
    | cons c cs =>
      cases m with
      | zero => simp at hm
      | succ m =>
        have hn' : cs.length ≤ n := by simpa using hn
        have hm' : cs.length ≤ m := by simpa using hm
        simp only [reSplitAux]
        by_cases ht : c = '\t'
        · rw [if_pos ht, if_pos ht, ih m cs hn' hm']
        · by_cases hsp : c = ' ' ∧ cs.head? = some ' '
          · rw [if_neg ht, if_neg ht, if_pos hsp, if_pos hsp]
            have hd := dropWhile_length_le (fun d => d = ' ') cs
            rw [ih m _ (hd.trans hn') (hd.trans hm')]
          · rw [if_neg ht, if_neg ht, if_neg hsp, if_neg hsp, ih m cs hn' hm']

theorem fieldSafe_tail (c : Char) (cs : Str) (h : fieldSafe (c :: cs) = true) :
    fieldSafe cs = true ∧ ¬ c = '\t' ∧ ¬ (c = ' ' ∧ cs.head? = some ' ') := by
  cases cs with
  | nil =>
    refine ⟨rfl, ?_, ?_⟩
    · intro hc
      subst hc
      exact absurd h (by decide)
    · rintro ⟨-, hh⟩
      simp at hh
  | cons c' cs' =>
    simp only [fieldSafe, noDoubleSpace, List.all_cons, Bool.and_eq_true,
      Bool.not_eq_true'] at h ⊢
    obtain ⟨⟨hct, hct', hall⟩, hnds, hrest⟩ := h
    refine ⟨⟨⟨hct', hall⟩, hrest⟩, by simpa using hct, ?_⟩
    rintro ⟨hc, hh⟩
    have hc' : c' = ' ' := by simpa using hh
    rw [hc, hc'] at hnds
    simp at hnds

theorem reSplitAux_append_tab (f : Str) : ∀ (n : Nat) (rest : Str),
    fieldSafe f = true → (f ++ '\t' :: rest).length ≤ n →
      reSplitAux n (f ++ '\t' :: rest) = f :: reSplitTS rest := by
  induction f with
  | nil =>
    intro n rest _ hn
    cases n with
    | zero => simp at hn
    | succ n =>
      simp only [List.nil_append, reSplitAux, if_pos rfl]
      rw [reSplitAux_fuel n rest.length rest (by simpa using hn) le_rfl]
      rfl
  | cons c cs ih =>
    intro n rest hf hn
    cases n with
    | zero => simp at hn
    | succ n =>
      obtain ⟨hf', hcTab, hcsp⟩ := fieldSafe_tail c cs hf
      have hcsp2 : ¬ (c = ' ' ∧ (cs ++ '\t' :: rest).head? = some ' ') := by
        cases cs with
        | nil => simp
        | cons c0 cs0 => simpa using hcsp
      rw [List.cons_append]
      simp only [reSplitAux, if_neg hcTab, if_neg hcsp2]
      rw [ih n rest hf' (by simpa using hn)]
      rfl

theorem reSplitAux_single (f : Str) : ∀ n : Nat,
    fieldSafe f = true → f.length ≤ n → reSplitAux n f = [f] := by
  induction f with
  | nil => intro n _ _; cases n <;> rfl
  | cons c cs ih =>
    intro n hf hn
    cases n with
    | zero => simp at hn
    | succ n =>
      obtain ⟨hf', hcTab, hcsp⟩ := fieldSafe_tail c cs hf
      simp only [reSplitAux, if_neg hcTab, if_neg hcsp]
      rw [ih n hf' (by simpa using hn)]
      rfl

theorem reSplitTS_joinTab (r : List Str) :
    (∀ f ∈ r, fieldSafe f = true) → r ≠ [] → reSplitTS (joinTab r) = r := by
  induction r with
  | nil => intro _ h; exact absurd rfl h
  | cons f r ih =>
    intro hf _
    cases r with
    | nil => exact reSplitAux_single f f.length (hf f (by simp)) le_rfl
    | cons g rs =>
      show reSplitTS (f ++ '\t' :: joinTab (g :: rs)) = f :: g :: rs
      rw [show reSplitTS (f ++ '\t' :: joinTab (g :: rs))
          = reSplitAux (f ++ '\t' :: joinTab (g :: rs)).length
              (f ++ '\t' :: joinTab (g :: rs)) from rfl]
      rw [reSplitAux_append_tab f _ _ (hf f (by simp)) le_rfl]
      rw [ih (fun x hx => hf x (List.mem_cons_of_mem f hx)) (by simp)]

theorem normLine_row_shape (hdr line : Str) (fields : List Str)
    (h : normLine hdr line = .row fields) :
    fields.length = 5 ∧ fields = (reSplitTS (pyStrip line)).map stripQuotes := by
  by_cases hh : removeWs (pyStrip line) = removeWs hdr
  · simp [normLine, hh] at h
  · by_cases h5 : (reSplitTS (pyStrip line)).length = 5
    · have h' : (reSplitTS (pyStrip line)).map stripQuotes = fields := by
        simpa [normLine, hh, h5] using h
      refine ⟨?_, h'.symm⟩
      rw [← h']
      simpa using h5
    · simp [normLine, hh, h5] at h

theorem processed_rows_shape (content : List Str) (hdr : Str) :
    ∀ s : NormResult,
      (∀ r ∈ s.rows, r.length = 5 ∧ ∀ f ∈ r, ∀ c ∈ f, ¬ c = '"') →
      ∀ r ∈ (content.foldl (normStep hdr) s).rows,
        r.length = 5 ∧ ∀ f ∈ r, ∀ c ∈ f, ¬ c = '"' := by
  induction content with
  | nil => exact fun s hs => hs
  | cons l ls ih =>
    intro s hs
    rw [List.foldl_cons]
    apply ih
    cases hd : normLine hdr l with
    | header a => simpa [normStep, hd] using hs
    | malformed a => simpa [normStep, hd] using hs
    | row fields =>
      intro r hr
      simp only [normStep, hd] at hr
      rcases List.mem_append.mp hr with hmem | hmem
      · exact hs r hmem
      · have hrf : r = fields := by simpa using hmem
        subst hrf
        obtain ⟨h5, hmap⟩ := normLine_row_shape hdr l r hd
        refine ⟨h5, ?_⟩
        intro f hfm c hc
        rw [hmap] at hfm
        rcases List.mem_map.mp hfm with ⟨g, -, rfl⟩
        have hpred := (List.mem_filter.mp hc).2
        simpa using hpred

theorem cleaned_eq_rows_map (content : List Str) (hdr : Str) :
    ∀ s : NormResult, s.cleaned = s.rows.map lineOf →
      (content.foldl (normStep hdr) s).cleaned
        = (content.foldl (normStep hdr) s).rows.map lineOf := by
  induction content with
  | nil => exact fun s hs => hs
  | cons l ls ih =>
    intro s hs
    rw [List.foldl_cons]
    apply ih
    cases hd : normLine hdr l with
    | header a => simpa [normStep, hd] using hs
    | malformed a => simpa [normStep, hd] using hs
    | row fields => simp [normStep, hd, hs]

theorem headOkay_append (f x : Str) (h : headOkay f = true) :
    headOkay (f ++ x) = true := by
  cases f with
  | nil => simp [headOkay] at h
  | cons c cs => simpa [headOkay] using h

theorem lastOkay_append (x g : Str) (h : lastOkay g = true) :
    lastOkay (x ++ g) = true := by
  unfold lastOkay at h ⊢
  rw [List.reverse_append]
  exact headOkay_append g.reverse x.reverse h

theorem normLine_lineOf (r : List Str) (h5 : r.length = 5)
    (hq : ∀ f ∈ r, ∀ c ∈ f, ¬ c = '"') (hg : goodRow r = true) :
    normLine expected_header (lineOf r) = .row r := by
  rcases r with _ | ⟨a, _ | ⟨b, _ | ⟨c0, _ | ⟨d, _ | ⟨e, _ | ⟨f, L⟩⟩⟩⟩⟩⟩ <;>
    simp only [List.length_nil, List.length_cons] at h5 <;> try omega
  simp only [goodRow, Bool.and_eq_true] at hg
  obtain ⟨⟨⟨hall, hhead⟩, hlast⟩, hhdr⟩ := hg
  have hallf : ∀ f ∈ [a, b, c0, d, e], fieldSafe f = true :=
    fun f hf => List.all_eq_true.mp hall f hf
  have hstrip : pyStrip (joinTab [a, b, c0, d, e] ++ ['\n'])
      = joinTab [a, b, c0, d, e] := by
    apply pyStrip_of_good_ends
    · rw [show joinTab [a, b, c0, d, e] = a ++ ('\t' :: joinTab [b, c0, d, e]) from rfl]
      exact headOkay_append a _ (by simpa [List.headI] using hhead)
    · have hjoin : joinTab [a, b, c0, d, e]
          = (a ++ '\t' :: (b ++ '\t' :: (c0 ++ '\t' :: (d ++ ['\t'])))) ++ e := by
        simp [joinTab, List.append_assoc]
      rw [hjoin]
      exact lastOkay_append _ e (by simpa [List.getLastI_eq_getLast?] using hlast)
  have hsplit : reSplitTS (joinTab [a, b, c0, d, e]) = [a, b, c0, d, e] :=
    reSplitTS_joinTab _ hallf (by simp)
  have hmap : [a, b, c0, d, e].map stripQuotes = [a, b, c0, d, e] := by
    have hcongr : ∀ f ∈ [a, b, c0, d, e], stripQuotes f = id f := by
      intro f hf
      simp only [id]
      exact List.filter_eq_self.mpr (fun c hc => by simpa using hq f hf c hc)
    rw [List.map_congr_left hcongr, List.map_id]
  show normLine expected_header (joinTab [a, b, c0, d, e] ++ ['\n'])
      = .row [a, b, c0, d, e]
  simp only [normLine, hstrip, hsplit, hmap]
  rw [if_neg (by simpa using hhdr)]
  simp

theorem process_lineOf_rows (rows : List (List Str))
    (h : ∀ r ∈ rows,
      r.length = 5 ∧ (∀ f ∈ r, ∀ c ∈ f, ¬ c = '"') ∧ goodRow r = true) :
    ∀ s : NormResult,
      (rows.map lineOf).foldl (normStep expected_header) s
        = { s with cleaned := s.cleaned ++ rows.map lineOf,
                   rows := s.rows ++ rows } := by
  induction rows with
  | nil => intro s; simp
  | cons r rs ih =>
    intro s
    simp only [List.map_cons, List.foldl_cons]
    obtain ⟨h5, hq, hg⟩ := h r (by simp)
    have hstep : normStep expected_header s (lineOf r)
        = { s with cleaned := s.cleaned ++ [lineOf r], rows := s.rows ++ [r] } := by
      simp [normStep, normLine_lineOf r h5 hq hg]
    rw [hstep, ih (fun x hx => h x (List.mem_cons_of_mem _ hx))]
    simp

/-- C5, original form refuted: from the line `"␉a␉b␉c␉d` the Normalizer
accepts the row `["", "a", "b", "c", "d"]` (the quote-only first field
strips to empty), but the written output line then starts with a tab,
which `strip` removes on re-parsing, leaving 4 fields — the re-parsed
accepted-row set loses the row. -/
theorem roundtrip_cex :
    (process_file_content
        (process_file_content ["\"\ta\tb\tc\td\n".toList] expected_header).cleaned
        expected_header).rows
      ≠ (process_file_content ["\"\ta\tb\tc\td\n".toList] expected_header).rows := by
  decide

/-- C5, amended: re-parsing the Normalizer's own output reproduces the
accepted-row list exactly, provided every accepted row survives the
write-read cycle: no field holds a tab or two adjacent spaces, the first
field starts and the last field ends with a non-whitespace character, and
the row's tab-join does not equal the header modulo whitespace. -/
theorem roundtrip_on_good_rows (content : List Str)
    (h : ∀ r ∈ (process_file_content content expected_header).rows,
      goodRow r = true) :
    (process_file_content
        (process_file_content content expected_header).cleaned
        expected_header).rows
      = (process_file_content content expected_header).rows := by
  have hshape := processed_rows_shape content expected_header ⟨[], [], []⟩ (by simp)
  have hclean := cleaned_eq_rows_map content expected_header ⟨[], [], []⟩ rfl
  simp only [process_file_content] at h hshape hclean ⊢
  rw [hclean,
    process_lineOf_rows _
      (fun r hr => ⟨(hshape r hr).1, (hshape r hr).2, h r hr⟩) ⟨[], [], []⟩]
  simp

/-- Witness for C5: a plain single-row file satisfies the row conditions
and round-trips unchanged. -/
theorem roundtrip_on_good_rows_witness :
    (∀ r ∈ (process_file_content ["001\tNowak\tJan\tIT\tDev\n".toList]
        expected_header).rows, goodRow r = true) ∧
    (process_file_content
        (process_file_content ["001\tNowak\tJan\tIT\tDev\n".toList]
          expected_header).cleaned expected_header).rows
      = (process_file_content ["001\tNowak\tJan\tIT\tDev\n".toList]
          expected_header).rows :=
  ⟨by decide, roundtrip_on_good_rows _ (by decide)⟩

end Enova

